import Mathlib

/-!
Verification of the task-manager data model and operations of
`src/src/main.rs` (a single-file Rust CLI task tracker).

Shallow embedding conventions:
* `DateTime<Local>` is modelled as its UTC instant, an `Int` counting
  minutes since the epoch (the finest granularity the due-date format
  `YYYY-MM-DD HH:MM` and the hour-based notification logic distinguish).
  The local UTC offset (`Local::now().offset()`), also in minutes, is an
  explicit parameter wherever the code converts between the instant and
  wall-clock text.
* `chrono::Duration` is likewise an `Int` number of minutes;
  `Duration::num_hours` truncates toward zero (Rust division), i.e.
  `Int.tdiv · 60`.
* Interactive inputs (dialoguer prompts) are explicit arguments.
* `Local::now()` is modelled as an ambient instant `now : Int` passed to
  each operation.
* The `serde_json` file is modelled as a JSON document value; rendering
  the document to file bytes is a deterministic function of it.
-/

namespace VT

/-- Model of `struct Category { name, color, emoji }`. -/
structure Category where
  name : String
  color : String
  emoji : String
deriving DecidableEq, Repr

/-- Model of `struct TimeEntry { start_time, end_time, duration }`. -/
structure TimeEntry where
  start_time : Int
  end_time : Option Int
  duration : Option Int
deriving DecidableEq, Repr

/-- Model of `enum Priority { Low, Medium, High, Urgent }`. -/
inductive Priority where
  | Low
  | Medium
  | High
  | Urgent
deriving DecidableEq, Repr

/-- Model of `enum Status { Todo, InProgress, Done }`. -/
inductive Status where
  | Todo
  | InProgress
  | Done
deriving DecidableEq, Repr

/-- Model of `struct Task` with its eleven fields. -/
structure Task where
  id : Nat
  title : String
  description : Option String
  priority : Priority
  status : Status
  due_date : Option Int
  created_at : Int
  categories : List Category
  time_entries : List TimeEntry
  current_time_entry : Option TimeEntry
  last_notification : Option Int
deriving DecidableEq, Repr

/-- Decimal digit character: `48 + d` is the ASCII code of digit `d`. -/
def decChar (d : Nat) : Char := Char.ofNat (48 + d)

/-- Model of Rust's `usize::to_string`: canonical decimal rendering of a
natural number (most significant digit first, no leading zeros, `"0"` for
zero). -/
def natToString (n : Nat) : String :=
  if n = 0 then "0" else String.mk (((Nat.digits 10 n).reverse).map decChar)

/-- Modelled from the spec: the persisted file format. The spec (§6) says
the collection is serialized as structured, self-describing text with field
names preserved, enum variants serialized as their textual names, and
timestamps at full precision; the `serde`/`serde_json` derive code realizing
this is not part of the repository source. JSON documents are modelled as
values of this inductive; timestamps keep their full model value. -/
inductive Json where
  | null
  | num (n : Int)
  | str (s : String)
  | arr (elems : List Json)
  | obj (fields : List (String × Json))

def Json.asNum : Json → Option Int
  | .num n => some n
  | _ => none

def Json.asStr : Json → Option String
  | .str s => some s
  | _ => none

def Json.asObj : Json → Option (List (String × Json))
  | .obj fs => some fs
  | _ => none

/-- Modelled from the spec: deterministic rendering of a JSON document to
the file's bytes (`serde_json::to_string_pretty`; the pretty-printer's exact
whitespace is abstracted, rendering is a function of the document alone). -/
def Json.render : Json → String
  | .null => "null"
  | .num n => toString n
  | .str s => "\"" ++ s ++ "\""
  | .arr elems => "[" ++ String.intercalate ", "
      (elems.attach.map (fun e => e.1.render)) ++ "]"
  | .obj fields => "\x7b" ++ String.intercalate ", "
      (fields.attach.map (fun f => "\"" ++ f.1.1 ++ "\": " ++ f.1.2.render)) ++ "\x7d"
decreasing_by
  all_goals
    first
    | (have h0 := List.sizeOf_lt_of_mem e.2
       simp only [Json.arr.sizeOf_spec]
       omega)
    | (have h1 := List.sizeOf_lt_of_mem f.2
       have h2 : sizeOf f.1.2 < sizeOf f.1 := by
         obtain ⟨⟨x, y⟩, hf⟩ := f
         simp only [Prod.mk.sizeOf_spec]
         omega
       simp only [Json.obj.sizeOf_spec]
       omega)

/-- Serde serializes `Option<T>` as `null` or the bare value. -/
def encodeOption (f : α → Json) : Option α → Json
  | none => .null
  | some x => f x

def decodeOption (g : Json → Option α) : Json → Option (Option α)
  | .null => some none
  | j => (g j).map some

/-- Field lookup in a serialized object, first binding wins. -/
def lookupField (fs : List (String × Json)) (k : String) : Option Json :=
  (fs.find? (fun f => f.1 == k)).map (fun f => f.2)

/-- Serde deserialization of `usize` rejects negative numbers. -/
def decodeNat : Json → Option Nat
  | .num (.ofNat n) => some n
  | _ => none

def encodePriority : Priority → Json
  | .Low => .str "Low"
  | .Medium => .str "Medium"
  | .High => .str "High"
  | .Urgent => .str "Urgent"

def decodePriority : Json → Option Priority
  | .str "Low" => some .Low
  | .str "Medium" => some .Medium
  | .str "High" => some .High
  | .str "Urgent" => some .Urgent
  | _ => none

def encodeStatus : Status → Json
  | .Todo => .str "Todo"
  | .InProgress => .str "InProgress"
  | .Done => .str "Done"

def decodeStatus : Json → Option Status
  | .str "Todo" => some .Todo
  | .str "InProgress" => some .InProgress
  | .str "Done" => some .Done
  | _ => none

def encodeCategory (c : Category) : Json :=
  .obj [("name", .str c.name), ("color", .str c.color), ("emoji", .str c.emoji)]

def decodeCategory (j : Json) : Option Category := do
  let fs ← j.asObj
  let name ← (lookupField fs "name").bind Json.asStr
  let color ← (lookupField fs "color").bind Json.asStr
  let emoji ← (lookupField fs "emoji").bind Json.asStr
  pure { name, color, emoji }

def encodeTimeEntry (e : TimeEntry) : Json :=
  .obj [("start_time", .num e.start_time),
        ("end_time", encodeOption Json.num e.end_time),
        ("duration", encodeOption Json.num e.duration)]

def decodeTimeEntry (j : Json) : Option TimeEntry := do
  let fs ← j.asObj
  let start_time ← (lookupField fs "start_time").bind Json.asNum
  let end_time ← (lookupField fs "end_time").bind (decodeOption Json.asNum)
  let duration ← (lookupField fs "duration").bind (decodeOption Json.asNum)
  pure { start_time, end_time, duration }

def decodeListWith (g : Json → Option α) : Json → Option (List α)
  | .arr es => es.mapM g
  | _ => none

def encodeTask (t : Task) : Json :=
  .obj [("id", .num (Int.ofNat t.id)),
        ("title", .str t.title),
        ("description", encodeOption Json.str t.description),
        ("priority", encodePriority t.priority),
        ("status", encodeStatus t.status),
        ("due_date", encodeOption Json.num t.due_date),
        ("created_at", .num t.created_at),
        ("categories", .arr (t.categories.map encodeCategory)),
        ("time_entries", .arr (t.time_entries.map encodeTimeEntry)),
        ("current_time_entry", encodeOption encodeTimeEntry t.current_time_entry),
        ("last_notification", encodeOption Json.num t.last_notification)]

def decodeTask (j : Json) : Option Task := do
  let fs ← j.asObj
  let id ← (lookupField fs "id").bind decodeNat
  let title ← (lookupField fs "title").bind Json.asStr
  let description ← (lookupField fs "description").bind (decodeOption Json.asStr)
  let priority ← (lookupField fs "priority").bind decodePriority
  let status ← (lookupField fs "status").bind decodeStatus
  let due_date ← (lookupField fs "due_date").bind (decodeOption Json.asNum)
  let created_at ← (lookupField fs "created_at").bind Json.asNum
  let categories ← (lookupField fs "categories").bind (decodeListWith decodeCategory)
  let time_entries ← (lookupField fs "time_entries").bind (decodeListWith decodeTimeEntry)
  let current_time_entry ←
    (lookupField fs "current_time_entry").bind (decodeOption decodeTimeEntry)
  let last_notification ←
    (lookupField fs "last_notification").bind (decodeOption Json.asNum)
  pure { id, title, description, priority, status, due_date, created_at,
         categories, time_entries, current_time_entry, last_notification }

/-- Model of `TaskManager::save`'s serialization of the whole collection. -/
def encodeTasks (ts : List Task) : Json := .arr (ts.map encodeTask)

/-- Model of the parse step of `TaskManager::new`'s load. -/
def decodeTasks : Json → Option (List Task)
  | .arr es => es.mapM decodeTask
  | _ => none

/-- Model of `TaskManager::new` loading an existing file:
`serde_json::from_str(&data).unwrap_or_default()` — a parse failure silently
yields the empty collection. -/
def loadTasks (j : Json) : List Task := (decodeTasks j).getD []

/-- Truncating division by 60: `chrono::Duration::num_hours` on a duration
counted in minutes (Rust integer division truncates toward zero). -/
def numHours (d : Int) : Int := Int.tdiv d 60

/-- Civil date and wall-clock time at minute precision, the components of
the `YYYY-MM-DD HH:MM` due-date format. -/
structure CalDT where
  year : Int
  month : Nat
  day : Nat
  hour : Nat
  minute : Nat
deriving DecidableEq, Repr

/-- Days since 1970-01-01 of a proleptic-Gregorian civil date (the standard
era-based algorithm; `/` on `Int` is floor division here). -/
def daysFromCivil (y : Int) (m d : Nat) : Int :=
  let y' : Int := if m ≤ 2 then y - 1 else y
  let era : Int := y' / 400
  let yoe : Int := y' - era * 400
  let mp : Int := if 2 < m then (m : Int) - 3 else (m : Int) + 9
  let doy : Int := (153 * mp + 2) / 5 + (d : Int) - 1
  let doe : Int := yoe * 365 + yoe / 4 - yoe / 100 + doy
  era * 146097 + doe - 719468

/-- Civil date of a day count since 1970-01-01 (inverse direction of
`daysFromCivil`). -/
def civilFromDays (z0 : Int) : Int × Nat × Nat :=
  let z := z0 + 719468
  let era := z / 146097
  let doe := z - era * 146097
  let yoe := (doe - doe / 1460 + doe / 36524 - doe / 146096) / 365
  let y := yoe + era * 400
  let doy := doe - (365 * yoe + yoe / 4 - yoe / 100)
  let mp := (5 * doy + 2) / 153
  let d := doy - (153 * mp + 2) / 5 + 1
  let m := if mp < 10 then mp + 3 else mp - 9
  (if m ≤ 2 then y + 1 else y, m.toNat, d.toNat)

/-- The instant (minutes since the epoch) of a naive calendar datetime. -/
def minutesFromDT (dt : CalDT) : Int :=
  daysFromCivil dt.year dt.month dt.day * 1440 + dt.hour * 60 + dt.minute

/-- The naive calendar datetime of an instant in minutes since the epoch. -/
def dtFromMinutes (t : Int) : CalDT :=
  let days := t / 1440
  let rem := (t - days * 1440).toNat
  let c := civilFromDays days
  ⟨c.1, c.2.1, c.2.2, rem / 60, rem % 60⟩

/-- Numeric value of a decimal digit character. -/
def dval (c : Char) : Nat := c.toNat - 48

def isLeapYear (y : Int) : Bool :=
  y % 4 == 0 && (y % 100 != 0 || y % 400 == 0)

def daysInMonth (y : Int) (m : Nat) : Nat :=
  if m == 2 then (if isLeapYear y then 29 else 28)
  else if m == 4 || m == 6 || m == 9 || m == 11 then 30
  else 31

/-- Model of `NaiveDateTime::parse_from_str(&s, "%Y-%m-%d %H:%M")` on text
in the fixed `YYYY-MM-DD HH:MM` shape: four year digits, two digits each
for month, day, hour and minute with the literal separators, the whole
string consumed, and calendar validity enforced (chrono rejects
out-of-range components). -/
def parseDue (s : String) : Option CalDT :=
  match s.data with
  | [y1, y2, y3, y4, '-', m1, m2, '-', d1, d2, ' ', h1, h2, ':', n1, n2] =>
    if y1.isDigit && y2.isDigit && y3.isDigit && y4.isDigit && m1.isDigit &&
       m2.isDigit && d1.isDigit && d2.isDigit && h1.isDigit && h2.isDigit &&
       n1.isDigit && n2.isDigit then
      let y : Nat := dval y1 * 1000 + dval y2 * 100 + dval y3 * 10 + dval y4
      let mo := dval m1 * 10 + dval m2
      let da := dval d1 * 10 + dval d2
      let h := dval h1 * 10 + dval h2
      let mi := dval n1 * 10 + dval n2
      if 1 ≤ mo ∧ mo ≤ 12 ∧ 1 ≤ da ∧ da ≤ daysInMonth (y : Int) mo ∧
         h ≤ 23 ∧ mi ≤ 59
      then some ⟨(y : Int), mo, da, h, mi⟩ else none
    else none
  | _ => none

def pad2 (n : Nat) : List Char := [decChar (n / 10 % 10), decChar (n % 10)]

def pad4 (n : Nat) : List Char :=
  [decChar (n / 1000 % 10), decChar (n / 100 % 10),
   decChar (n / 10 % 10), decChar (n % 10)]

/-- Model of `due.format("%Y-%m-%d %H:%M")` on a `DateTime<Local>`: the
stored UTC instant is shifted by the attached local offset
(`naive_local = naive_utc + offset`) and rendered as zero-padded text. -/
def renderDue (off : Int) (i : Int) : String :=
  let dt := dtFromMinutes (i + off)
  String.mk (pad4 dt.year.toNat ++ '-' :: pad2 dt.month ++ '-' :: pad2 dt.day
    ++ ' ' :: pad2 dt.hour ++ ':' :: pad2 dt.minute)

/-- Model of `TaskManager`: the in-memory collection plus the persisted
file document at `~/.vibe_tasks.json`. -/
structure TaskManager where
  tasks : List Task
  file : Json

/-- The recoverable outcomes the operations print. -/
inductive OpResult where
  | ok
  | notFound
  | alreadyRunning
  | nothingRunning
deriving DecidableEq, Repr

/-- Model of `self.save()`: serialize the entire collection and overwrite
the backing file. -/
def save (ts : List Task) : TaskManager := ⟨ts, encodeTasks ts⟩

/-- Model of `self.tasks.iter_mut().find(pred)` followed by an in-place
mutation of the found task: rewrite the first matching element, `none`
when no element matches. -/
def modifyFirst (p : Task → Bool) (f : Task → Task) : List Task → Option (List Task)
  | [] => none
  | t :: ts => if p t then some (f t :: ts) else (modifyFirst p f ts).map (t :: ·)

/-- Model of `iter().position(pred)` followed by `remove(pos)`. -/
def deleteFirst (p : Task → Bool) : List Task → Option (List Task)
  | [] => none
  | t :: ts => if p t then some ts else (deleteFirst p ts).map (t :: ·)

/-- The fixed category catalog hardcoded in `add_categories`. -/
def availableCategories : List Category :=
  [⟨"Work", "blue", "💼"⟩, ⟨"Personal", "green", "🏠"⟩,
   ⟨"Study", "yellow", "📚"⟩, ⟨"Health", "red", "💪"⟩,
   ⟨"Shopping", "cyan", "🛒"⟩]

/-- The catalog entries picked by a multi-select: `selections` are in-range
indices, as `MultiSelect::interact` returns. -/
def selectedCategories (selections : List (Fin 5)) : List Category :=
  selections.map (fun i => availableCategories.get (Fin.cast rfl i))

/-- Model of `TaskManager::add_categories`: replace the first matching
task's categories wholesale with the selected catalog entries, save;
report not-found otherwise. -/
def add_categories (m : TaskManager) (id : Nat) (selections : List (Fin 5)) :
    TaskManager × OpResult :=
  match modifyFirst (fun t => t.id == id)
      (fun t => { t with categories := selectedCategories selections }) m.tasks with
  | some ts => (save ts, .ok)
  | none => (m, .notFound)

/-- Model of `TaskManager::start_time_tracking`: refuse when an entry is
already running (no save), otherwise open `⟨now, none, none⟩`. -/
def start_time_tracking (m : TaskManager) (id : Nat) (now : Int) :
    TaskManager × OpResult :=
  match m.tasks.find? (fun t => t.id == id) with
  | none => (m, .notFound)
  | some task =>
    if task.current_time_entry.isSome then (m, .alreadyRunning)
    else
      let ts := (modifyFirst (fun t => t.id == id)
        (fun t => { t with current_time_entry := some ⟨now, none, none⟩ })
        m.tasks).getD m.tasks
      (save ts, .ok)

/-- Closing a time entry: `end_time = now`,
`duration = end_time - start_time`. -/
def closeEntry (now : Int) (c : TimeEntry) : TimeEntry :=
  { c with end_time := some now, duration := some (now - c.start_time) }

/-- Model of `TaskManager::stop_time_tracking`: take the current entry,
close it, append it to `time_entries`, save; report when nothing runs. -/
def stop_time_tracking (m : TaskManager) (id : Nat) (now : Int) :
    TaskManager × OpResult :=
  match m.tasks.find? (fun t => t.id == id) with
  | none => (m, .notFound)
  | some task =>
    match task.current_time_entry with
    | none => (m, .nothingRunning)
    | some _ =>
      let ts := (modifyFirst (fun t => t.id == id)
        (fun t =>
          match t.current_time_entry with
          | some c =>
            { t with
              current_time_entry := none
              time_entries := t.time_entries ++ [closeEntry now c] }
          | none => t) m.tasks).getD m.tasks
      (save ts, .ok)

/-- One rendered line of the time report: a closed session's start, end
and duration. -/
structure Session where
  start_time : Int
  end_time : Option Int
  duration : Int
deriving DecidableEq, Repr

/-- The observable output of `generate_time_report`. -/
inductive ReportResult where
  | notFound
  | noEntries (id : Nat) (title : String)
  | report (id : Nat) (title : String) (sessions : List Session)
      (current : Option (Int × Int)) (total : Int)
deriving DecidableEq, Repr

/-- Model of `TaskManager::generate_time_report` (`&self`, read-only): when
`time_entries` is empty the function returns right after the header — the
open entry, if any, is not rendered; otherwise it renders one session per
entry that has a duration while accumulating their sum, then the open
entry's start and elapsed time, then the accumulated total (which does not
include the open entry's elapsed time). -/
def generate_time_report (m : TaskManager) (id : Nat) (now : Int) : ReportResult :=
  match m.tasks.find? (fun t => t.id == id) with
  | none => .notFound
  | some task =>
    if task.time_entries.isEmpty then .noEntries task.id task.title
    else
      let acc := task.time_entries.foldl
        (fun (a : List Session × Int) e =>
          match e.duration with
          | some d => (a.1 ++ [⟨e.start_time, e.end_time, d⟩], a.2 + d)
          | none => a) ([], 0)
      .report task.id task.title acc.1
        (task.current_time_entry.map (fun c => (c.start_time, now - c.start_time)))
        acc.2

/-- Model of `TaskManager::complete_task`: set the first matching task's
status to Done unconditionally, save. -/
def complete_task (m : TaskManager) (id : Nat) : TaskManager × OpResult :=
  match modifyFirst (fun t => t.id == id)
      (fun t => { t with status := .Done }) m.tasks with
  | some ts => (save ts, .ok)
  | none => (m, .notFound)

/-- The `update_status` interactive selection: an index into
`["Todo", "In Progress", "Done"]`, anything else falling back to Todo. -/
def statusOfIdx (i : Nat) : Status :=
  match i with
  | 0 => .Todo
  | 1 => .InProgress
  | 2 => .Done
  | _ => .Todo

/-- Model of `TaskManager::update_status`. -/
def update_status (m : TaskManager) (id : Nat) (statusIdx : Nat) :
    TaskManager × OpResult :=
  match modifyFirst (fun t => t.id == id)
      (fun t => { t with status := statusOfIdx statusIdx }) m.tasks with
  | some ts => (save ts, .ok)
  | none => (m, .notFound)

/-- Model of `TaskManager::delete_task`: remove the task at the position of
the first matching id, save; report not-found otherwise. -/
def delete_task (m : TaskManager) (id : Nat) : TaskManager × OpResult :=
  match deleteFirst (fun t => t.id == id) m.tasks with
  | some ts => (save ts, .ok)
  | none => (m, .notFound)

/-- The `add_task` priority selection: an index into
`["Low", "Medium", "High", "Urgent"]`, anything else falling back to
Medium. -/
def priorityOfIdx (i : Nat) : Priority :=
  match i with
  | 0 => .Low
  | 1 => .Medium
  | 2 => .High
  | 3 => .Urgent
  | _ => .Medium

/-- Model of `TaskManager::add_task`. The interactive inputs are
parameters: title, description (empty means none), priority index,
due-date text (empty means no due date; otherwise parsed, an unparseable
text silently becoming no due date) and the category selection of the
chained `add_categories(task_id)` call. The parsed naive datetime is
combined with the local offset via `DateTime::from_naive_utc_and_offset`,
which treats it as a UTC instant, so the stored instant equals the entered
wall-clock value un-shifted. -/
def add_task (m : TaskManager) (title description : String) (priorityIdx : Nat)
    (dueText : String) (selections : List (Fin 5)) (now : Int) : TaskManager :=
  let due_date : Option Int :=
    if dueText ≠ "" then
      match parseDue dueText with
      | some dt => some (minutesFromDT dt)
      | none => none
    else none
  let task_id := m.tasks.length + 1
  let task : Task :=
    { id := task_id, title := title,
      description := if description = "" then none else some description,
      priority := priorityOfIdx priorityIdx, status := .Todo,
      due_date := due_date, created_at := now, categories := [],
      time_entries := [], current_time_entry := none, last_notification := none }
  let m1 := save (m.tasks ++ [task])
  (add_categories m1 task_id selections).1

/-- Model of the due-date line of `list_tasks`:
`due.format("%Y-%m-%d %H:%M")`, one optional line per task in collection
order. -/
def listDueLines (off : Int) (m : TaskManager) : List (Option String) :=
  m.tasks.map (fun t => t.due_date.map (renderDue off))

/-- The notification body text built by `check_notifications`. -/
def notifText (title : String) (hrs : Int) : String :=
  "Task \x27" ++ title ++ "\x27 is due " ++
    (if hrs == 0 then "now" else "in " ++ toString hrs ++ " hours") ++ "!"

/-- The read-only collect pass of `check_notifications`: a task yields a
notification `(id.to_string(), text)` iff it has a due date, the truncated
hours until it lie in `0..=24`, and the last notification is absent or at
least 6 truncated hours old. -/
def dueSoonCheck (now : Int) (t : Task) : Option (String × String) :=
  match t.due_date with
  | some due =>
    let tud := due - now
    if numHours tud ≤ 24 ∧ 0 ≤ numHours tud then
      let shouldNotify : Bool :=
        match t.last_notification with
        | some last => decide (6 ≤ numHours (now - last))
        | none => true
      if shouldNotify then
        some (natToString t.id, notifText t.title (numHours tud))
      else none
    else none
  | none => none

/-- One iteration of the send loop of `check_notifications`: attempt
delivery (`deliver` models the success of `Notification::show()`); on
success set the first task whose id renders to the collected id string to
`last_notification = now`, on failure only report. -/
def applyNotif (now : Int) (deliver : String → String → Bool)
    (ts : List Task) (q : String × String) : List Task :=
  if deliver q.1 q.2 then
    (modifyFirst (fun t => natToString t.id == q.1)
      (fun t => { t with last_notification := some now }) ts).getD ts
  else ts

/-- Model of `TaskManager::check_notifications`: collect the notifications
first (read-only pass over the collection), then run the send loop over
them, finally save once. -/
def check_notifications (m : TaskManager) (now : Int)
    (deliver : String → String → Bool) : TaskManager :=
  let notifications := m.tasks.filterMap (dueSoonCheck now)
  save (notifications.foldl (applyNotif now deliver) m.tasks)

/-- The state of a fresh run: no backing file yet, empty collection. -/
def initTM : TaskManager := ⟨[], encodeTasks []⟩

/-- One CLI invocation = one operation on the manager state (`list` and
`time-report` take `&self` and leave the state untouched, represented by
the reflexive `read` step). -/
inductive Step : TaskManager → TaskManager → Prop where
  | add (m : TaskManager) (title description : String) (priorityIdx : Nat)
      (dueText : String) (selections : List (Fin 5)) (now : Int) :
      Step m (add_task m title description priorityIdx dueText selections now)
  | complete (m : TaskManager) (id : Nat) : Step m (complete_task m id).1
  | status (m : TaskManager) (id statusIdx : Nat) :
      Step m (update_status m id statusIdx).1
  | delete (m : TaskManager) (id : Nat) : Step m (delete_task m id).1
  | categories (m : TaskManager) (id : Nat) (selections : List (Fin 5)) :
      Step m (add_categories m id selections).1
  | start (m : TaskManager) (id : Nat) (now : Int) :
      Step m (start_time_tracking m id now).1
  | stop (m : TaskManager) (id : Nat) (now : Int) :
      Step m (stop_time_tracking m id now).1
  | notify (m : TaskManager) (now : Int) (deliver : String → String → Bool) :
      Step m (check_notifications m now deliver)
  | read (m : TaskManager) : Step m m

/-- Steps other than the delete operation. -/
inductive StepND : TaskManager → TaskManager → Prop where
  | add (m : TaskManager) (title description : String) (priorityIdx : Nat)
      (dueText : String) (selections : List (Fin 5)) (now : Int) :
      StepND m (add_task m title description priorityIdx dueText selections now)
  | complete (m : TaskManager) (id : Nat) : StepND m (complete_task m id).1
  | status (m : TaskManager) (id statusIdx : Nat) :
      StepND m (update_status m id statusIdx).1
  | categories (m : TaskManager) (id : Nat) (selections : List (Fin 5)) :
      StepND m (add_categories m id selections).1
  | start (m : TaskManager) (id : Nat) (now : Int) :
      StepND m (start_time_tracking m id now).1
  | stop (m : TaskManager) (id : Nat) (now : Int) :
      StepND m (stop_time_tracking m id now).1
  | notify (m : TaskManager) (now : Int) (deliver : String → String → Bool) :
      StepND m (check_notifications m now deliver)
  | read (m : TaskManager) : StepND m m

/-- States reachable from a fresh run by operations that never delete. -/
inductive ReachableND : TaskManager → Prop where
  | init : ReachableND initTM
  | step {m m' : TaskManager} : ReachableND m → StepND m m' → ReachableND m'

/-- The spec's notification-eligibility condition (§4.9): a due date
within 0..=24 truncated hours from now, and a cooldown of at least 6
truncated hours since the last notification, if any. -/
def NotifEligible (now : Int) (t : Task) : Prop :=
  ∃ due, t.due_date = some due ∧ 0 ≤ numHours (due - now) ∧
    numHours (due - now) ≤ 24 ∧
    (t.last_notification = none ∨
      ∃ last, t.last_notification = some last ∧ 6 ≤ numHours (now - last))

/-- Ids as assigned by a run without deletes: position shifted by one. -/
def IdsCanonical (m : TaskManager) : Prop :=
  m.tasks.map Task.id = List.range' 1 m.tasks.length

/-- The timer invariant of §3: every entry recorded in `time_entries` is
closed (the at-most-one open entry is held in `current_time_entry` by
construction of the data type). -/
def TimerInv (ts : List Task) : Prop :=
  ∀ t ∈ ts, ∀ e ∈ t.time_entries, e.end_time.isSome ∧ e.duration.isSome

/-- A minimal concrete task, used by witnesses and counterexamples. -/
def mkTask (id : Nat) : Task :=
  { id := id, title := "t", description := none, priority := .Medium,
    status := .Todo, due_date := none, created_at := 0, categories := [],
    time_entries := [], current_time_entry := none, last_notification := none }

/-! Lemma and theorem layer. -/

theorem decChar_inj_lt : ∀ x < 10, ∀ y < 10, decChar x = decChar y → x = y := by
  decide

theorem decChar_ne_zero_char : ∀ d < 10, d ≠ 0 → decChar d ≠ '0' := by
  decide

theorem map_decChar_inj : ∀ l1 l2 : List Nat, (∀ x ∈ l1, x < 10) →
    (∀ x ∈ l2, x < 10) → l1.map decChar = l2.map decChar → l1 = l2 := by
  intro l1
  induction l1 with
  | nil =>
    intro l2 _ _ h
    cases l2 with
    | nil => rfl
    | cons b t2 => simp at h
  | cons a t ih =>
    intro l2 h1 h2 h
    cases l2 with
    | nil => simp at h
    | cons b t2 =>
      simp only [List.map_cons, List.cons.injEq] at h
      have ha : a < 10 := h1 a (by simp)
      have hb : b < 10 := h2 b (by simp)
      have hab : a = b := decChar_inj_lt a ha b hb h.1
      have ht : t = t2 := by
        refine ih t2 (fun x hx => h1 x (by simp [hx])) (fun x hx => h2 x (by simp [hx])) h.2
      rw [hab, ht]

/-- Distinct naturals render to distinct decimal strings. -/
theorem natToString_injective : Function.Injective natToString := by
  intro a b h
  unfold natToString at h
  by_cases ha : a = 0 <;> by_cases hb : b = 0
  · rw [ha, hb]
  · exfalso
    rw [if_pos ha, if_neg hb] at h
    have hdata : ('0' :: ([] : List Char)) = ((Nat.digits 10 b).reverse).map decChar := by
      have := congrArg String.data h
      simpa using this
    have hlen : 1 = ((Nat.digits 10 b).reverse).length := by
      have := congrArg List.length hdata
      simpa using this
    have hlen' : (Nat.digits 10 b).length = 1 := by
      simpa using hlen.symm
    obtain ⟨d, hdig⟩ : ∃ d, Nat.digits 10 b = [d] := by
      cases hdig : Nat.digits 10 b with
      | nil => rw [hdig] at hlen'; simp at hlen'
      | cons x xs =>
        cases xs with
        | nil => exact ⟨x, rfl⟩
        | cons y ys => rw [hdig] at hlen'; simp at hlen'
    rw [hdig] at hdata
    simp only [List.reverse_cons, List.reverse_nil, List.nil_append, List.map_cons,
      List.map_nil, List.cons.injEq] at hdata
    have hd10 : d < 10 := Nat.digits_lt_base (by norm_num) (by rw [hdig]; simp)
    have hbd : b = d := by
      conv_lhs => rw [← Nat.ofDigits_digits 10 b, hdig]
      simp [Nat.ofDigits]
    exact decChar_ne_zero_char d hd10 (by omega) hdata.1.symm
  · exfalso
    rw [if_neg ha, if_pos hb] at h
    have hdata : ((Nat.digits 10 a).reverse).map decChar = ('0' :: ([] : List Char)) := by
      have := congrArg String.data h
      simpa using this
    have hlen' : (Nat.digits 10 a).length = 1 := by
      have := congrArg List.length hdata
      simpa using this
    obtain ⟨d, hdig⟩ : ∃ d, Nat.digits 10 a = [d] := by
      cases hdig : Nat.digits 10 a with
      | nil => rw [hdig] at hlen'; simp at hlen'
      | cons x xs =>
        cases xs with
        | nil => exact ⟨x, rfl⟩
        | cons y ys => rw [hdig] at hlen'; simp at hlen'
    rw [hdig] at hdata
    simp only [List.reverse_cons, List.reverse_nil, List.nil_append, List.map_cons,
      List.map_nil, List.cons.injEq] at hdata
    have hd10 : d < 10 := Nat.digits_lt_base (by norm_num) (by rw [hdig]; simp)
    have had : a = d := by
      conv_lhs => rw [← Nat.ofDigits_digits 10 a, hdig]
      simp [Nat.ofDigits]
    exact decChar_ne_zero_char d hd10 (by omega) hdata.1
  · rw [if_neg ha, if_neg hb] at h
    have hdata : ((Nat.digits 10 a).reverse).map decChar
        = ((Nat.digits 10 b).reverse).map decChar := by
      have := congrArg String.data h
      simpa using this
    have hrev : (Nat.digits 10 a).reverse = (Nat.digits 10 b).reverse := by
      refine map_decChar_inj _ _ ?_ ?_ hdata
      · intro x hx
        exact Nat.digits_lt_base (by norm_num) (List.mem_reverse.mp hx)
      · intro x hx
        exact Nat.digits_lt_base (by norm_num) (List.mem_reverse.mp hx)
    have hdig : Nat.digits 10 a = Nat.digits 10 b := by
      have := congrArg List.reverse hrev
      simpa using this
    calc a = Nat.ofDigits 10 (Nat.digits 10 a) := (Nat.ofDigits_digits 10 a).symm
    _ = Nat.ofDigits 10 (Nat.digits 10 b) := by rw [hdig]
    _ = b := Nat.ofDigits_digits 10 b

theorem decodeCategory_encode (c : Category) :
    decodeCategory (encodeCategory c) = some c := rfl

theorem decodeTimeEntry_encode (e : TimeEntry) :
    decodeTimeEntry (encodeTimeEntry e) = some e := by
  obtain ⟨s, et, du⟩ := e
  cases et <;> cases du <;> rfl

theorem decodePriority_encode (p : Priority) :
    decodePriority (encodePriority p) = some p := by
  cases p <;> rfl

theorem decodeStatus_encode (s : Status) :
    decodeStatus (encodeStatus s) = some s := by
  cases s <;> rfl

theorem mapM_map_round (f : α → Json) (g : Json → Option α)
    (h : ∀ x, g (f x) = some x) (es : List α) : (es.map f).mapM g = some es := by
  induction es with
  | nil => rfl
  | cons x xs ih =>
    rw [List.map_cons, List.mapM_cons, h x, ih]
    rfl

theorem decodeOption_encode_timeEntry (o : Option TimeEntry) :
    decodeOption decodeTimeEntry (encodeOption encodeTimeEntry o) = some o := by
  cases o with
  | none => rfl
  | some e =>
    show (decodeTimeEntry (encodeTimeEntry e)).map some = some (some e)
    rw [decodeTimeEntry_encode]
    rfl

theorem decodeOption_encode_str (o : Option String) :
    decodeOption Json.asStr (encodeOption Json.str o) = some o := by
  cases o <;> rfl

theorem decodeOption_encode_num (o : Option Int) :
    decodeOption Json.asNum (encodeOption Json.num o) = some o := by
  cases o <;> rfl

theorem lookupTask (v1 v2 v3 v4 v5 v6 v7 v8 v9 v10 v11 : Json) :
    let fs := [("id", v1), ("title", v2), ("description", v3), ("priority", v4),
               ("status", v5), ("due_date", v6), ("created_at", v7),
               ("categories", v8), ("time_entries", v9),
               ("current_time_entry", v10), ("last_notification", v11)]
    lookupField fs "id" = some v1 ∧ lookupField fs "title" = some v2 ∧
    lookupField fs "description" = some v3 ∧ lookupField fs "priority" = some v4 ∧
    lookupField fs "status" = some v5 ∧ lookupField fs "due_date" = some v6 ∧
    lookupField fs "created_at" = some v7 ∧ lookupField fs "categories" = some v8 ∧
    lookupField fs "time_entries" = some v9 ∧
    lookupField fs "current_time_entry" = some v10 ∧
    lookupField fs "last_notification" = some v11 := by
  exact ⟨rfl, rfl, rfl, rfl, rfl, rfl, rfl, rfl, rfl, rfl, rfl⟩

theorem decodeTask_encode (t : Task) : decodeTask (encodeTask t) = some t := by
  obtain ⟨id, title, de, pr, st, dd, ca, cats, tes, cte, ln⟩ := t
  obtain ⟨l1, l2, l3, l4, l5, l6, l7, l8, l9, l10, l11⟩ :=
    lookupTask (.num (Int.ofNat id)) (.str title) (encodeOption Json.str de)
      (encodePriority pr) (encodeStatus st) (encodeOption Json.num dd)
      (.num ca) (.arr (cats.map encodeCategory)) (.arr (tes.map encodeTimeEntry))
      (encodeOption encodeTimeEntry cte) (encodeOption Json.num ln)
  simp only [encodeTask, decodeTask, Json.asObj, Option.bind_eq_bind,
    Option.some_bind, Option.pure_def,
    l1, l2, l3, l4, l5, l6, l7, l8, l9, l10, l11,
    decodeNat, Json.asStr, Json.asNum, decodeListWith,
    decodeOption_encode_str, decodeOption_encode_num,
    decodeOption_encode_timeEntry, decodePriority_encode, decodeStatus_encode,
    mapM_map_round encodeCategory decodeCategory decodeCategory_encode,
    mapM_map_round encodeTimeEntry decodeTimeEntry decodeTimeEntry_encode]

/-- Save-then-load round trip at the document level. -/
theorem decodeTasks_encodeTasks (ts : List Task) :
    decodeTasks (encodeTasks ts) = some ts := by
  simp only [encodeTasks, decodeTasks]
  exact mapM_map_round encodeTask decodeTask decodeTask_encode ts

theorem modifyFirst_eq_none {p : Task → Bool} {f : Task → Task} :
    ∀ {ts : List Task}, modifyFirst p f ts = none ↔ ∀ t ∈ ts, p t = false := by
  intro ts
  induction ts with
  | nil => simp [modifyFirst]
  | cons a as ih =>
    simp only [modifyFirst]
    by_cases hpa : p a = true
    · simp [hpa]
    · simp only [Bool.not_eq_true] at hpa
      simp [hpa, ih]

theorem modifyFirst_spec {p : Task → Bool} {f : Task → Task} :
    ∀ {ts ts' : List Task}, modifyFirst p f ts = some ts' →
    ∃ (k : Nat) (t : Task), ts[k]? = some t ∧ p t = true ∧
      (∀ j, j < k → ∀ u, ts[j]? = some u → p u = false) ∧
      ts'[k]? = some (f t) ∧ (∀ j, j ≠ k → ts'[j]? = ts[j]?) := by
  intro ts
  induction ts with
  | nil => intro ts' h; simp [modifyFirst] at h
  | cons a as ih =>
    intro ts' h
    simp only [modifyFirst] at h
    by_cases hpa : p a = true
    · rw [if_pos hpa] at h
      injection h with h
      subst h
      refine ⟨0, a, by simp, hpa, ?_, by simp, ?_⟩
      · intro j hj u _
        exact (Nat.not_lt_zero j hj).elim
      · intro j hj
        cases j with
        | zero => exact absurd rfl hj
        | succ n => simp
    · rw [if_neg hpa] at h
      cases hmf : modifyFirst p f as with
      | none => rw [hmf] at h; simp at h
      | some bs =>
        rw [hmf] at h
        simp only [Option.map_some', Option.some.injEq] at h
        subst h
        obtain ⟨k, t, h1, h2, h3, h4, h5⟩ := ih hmf
        refine ⟨k + 1, t, by simpa using h1, h2, ?_, by simpa using h4, ?_⟩
        · intro j hj u hu
          cases j with
          | zero =>
            simp only [List.getElem?_cons_zero, Option.some.injEq] at hu
            subst hu
            simpa using hpa
          | succ n =>
            exact h3 n (by omega) u (by simpa using hu)
        · intro j hj
          cases j with
          | zero => simp
          | succ n =>
            have hn : n ≠ k := by omega
            simpa using h5 n hn

theorem modifyFirst_at {p : Task → Bool} {f : Task → Task} :
    ∀ {ts : List Task} {k : Nat} {t : Task}, ts[k]? = some t → p t = true →
    (∀ j, j < k → ∀ u, ts[j]? = some u → p u = false) →
    ∃ ts', modifyFirst p f ts = some ts' ∧ ts'[k]? = some (f t) ∧
      ∀ j, j ≠ k → ts'[j]? = ts[j]? := by
  intro ts
  induction ts with
  | nil => intro k t h _ _; simp at h
  | cons a as ih =>
    intro k t hk hp hmin
    cases k with
    | zero =>
      simp only [List.getElem?_cons_zero, Option.some.injEq] at hk
      subst hk
      refine ⟨f a :: as, by simp [modifyFirst, hp], by simp, ?_⟩
      intro j hj
      cases j with
      | zero => exact absurd rfl hj
      | succ n => simp
    | succ n =>
      have hpa : p a = false := hmin 0 (Nat.succ_pos n) a (by simp)
      have hmin' : ∀ j, j < n → ∀ u, as[j]? = some u → p u = false := by
        intro j hj u hu
        exact hmin (j + 1) (by omega) u (by simpa using hu)
      obtain ⟨bs, hbs, h1, h2⟩ := ih (by simpa using hk) hp hmin'
      refine ⟨a :: bs, ?_, by simpa using h1, ?_⟩
      · simp [modifyFirst, hpa, hbs]
      · intro j hj
        cases j with
        | zero => simp
        | succ i =>
          have hi : i ≠ n := by omega
          simpa using h2 i hi

theorem modifyFirst_getD_of_none_at {p : Task → Bool} {f : Task → Task}
    {ts : List Task} {i : Nat} (h : ∀ u, ts[i]? = some u → p u = false) :
    ((modifyFirst p f ts).getD ts)[i]? = ts[i]? := by
  cases hmf : modifyFirst p f ts with
  | none => rfl
  | some ts' =>
    obtain ⟨k, t, h1, h2, _, _, h5⟩ := modifyFirst_spec hmf
    have hik : i ≠ k := by
      intro e
      subst e
      have := h t h1
      rw [this] at h2
      cases h2
    simpa using h5 i hik

theorem modifyFirst_map {p : Task → Bool} {f : Task → Task} {β : Type}
    {g : Task → β} (hg : ∀ t, g (f t) = g t) :
    ∀ {ts ts' : List Task}, modifyFirst p f ts = some ts' →
    ts'.map g = ts.map g := by
  intro ts
  induction ts with
  | nil => intro ts' h; simp [modifyFirst] at h
  | cons a as ih =>
    intro ts' h
    simp only [modifyFirst] at h
    by_cases hpa : p a = true
    · rw [if_pos hpa] at h
      injection h with h
      subst h
      simp [hg]
    · rw [if_neg hpa] at h
      cases hmf : modifyFirst p f as with
      | none => rw [hmf] at h; simp at h
      | some bs =>
        rw [hmf] at h
        simp only [Option.map_some', Option.some.injEq] at h
        subst h
        simp [ih hmf]

theorem modifyFirst_getD_map {p : Task → Bool} {f : Task → Task} {β : Type}
    {g : Task → β} (hg : ∀ t, g (f t) = g t) (ts : List Task) :
    ((modifyFirst p f ts).getD ts).map g = ts.map g := by
  cases hmf : modifyFirst p f ts with
  | none => rfl
  | some ts' => simpa using modifyFirst_map hg hmf

theorem modifyFirst_getD_getElem_map {p : Task → Bool} {f : Task → Task}
    {β : Type} {g : Task → β} (hg : ∀ t, g (f t) = g t) (ts : List Task) (j : Nat) :
    (((modifyFirst p f ts).getD ts)[j]?).map g = (ts[j]?).map g := by
  have h := modifyFirst_getD_map (p := p) (f := f) hg ts
  have h1 := List.getElem?_map g ((modifyFirst p f ts).getD ts) j
  have h2 := List.getElem?_map g ts j
  rw [← h1, ← h2, h]

theorem modifyFirst_forall {p : Task → Bool} {f : Task → Task} {P : Task → Prop}
    (hf : ∀ t, P t → P (f t)) :
    ∀ {ts ts' : List Task}, modifyFirst p f ts = some ts' →
    (∀ t ∈ ts, P t) → ∀ t ∈ ts', P t := by
  intro ts
  induction ts with
  | nil => intro ts' h; simp [modifyFirst] at h
  | cons a as ih =>
    intro ts' h hall
    simp only [modifyFirst] at h
    by_cases hpa : p a = true
    · rw [if_pos hpa] at h
      injection h with h
      subst h
      intro t ht
      rcases List.mem_cons.mp ht with h | h
      · subst h
        exact hf a (hall a (by simp))
      · exact hall t (by simp [h])
    · rw [if_neg hpa] at h
      cases hmf : modifyFirst p f as with
      | none => rw [hmf] at h; simp at h
      | some bs =>
        rw [hmf] at h
        simp only [Option.map_some', Option.some.injEq] at h
        subst h
        intro t ht
        rcases List.mem_cons.mp ht with h | h
        · subst h
          exact hall t (by simp)
        · exact ih hmf (fun u hu => hall u (by simp [hu])) t h

theorem modifyFirst_getD_forall {p : Task → Bool} {f : Task → Task}
    {P : Task → Prop} (hf : ∀ t, P t → P (f t)) {ts : List Task}
    (hall : ∀ t ∈ ts, P t) : ∀ t ∈ (modifyFirst p f ts).getD ts, P t := by
  cases hmf : modifyFirst p f ts with
  | none => simpa using hall
  | some ts' =>
    simp only [Option.getD_some]
    exact modifyFirst_forall hf hmf hall

theorem find?_spec {p : Task → Bool} :
    ∀ {ts : List Task} {t : Task}, ts.find? p = some t →
    ∃ (k : Nat), ts[k]? = some t ∧ p t = true ∧
      ∀ j, j < k → ∀ u, ts[j]? = some u → p u = false := by
  intro ts
  induction ts with
  | nil => intro t h; simp at h
  | cons a as ih =>
    intro t h
    rw [List.find?_cons] at h
    by_cases hpa : p a = true
    · rw [hpa] at h
      injection h with h
      subst h
      exact ⟨0, by simp, hpa, fun j hj u _ => (Nat.not_lt_zero j hj).elim⟩
    · rw [Bool.not_eq_true] at hpa
      rw [hpa] at h
      obtain ⟨k, h1, h2, h3⟩ := ih h
      refine ⟨k + 1, by simpa using h1, h2, ?_⟩
      intro j hj u hu
      cases j with
      | zero =>
        simp only [List.getElem?_cons_zero, Option.some.injEq] at hu
        subst hu
        exact hpa
      | succ n =>
        exact h3 n (by omega) u (by simpa using hu)

theorem find?_of_first {p : Task → Bool} :
    ∀ {ts : List Task} {k : Nat} {t : Task}, ts[k]? = some t → p t = true →
    (∀ j, j < k → ∀ u, ts[j]? = some u → p u = false) →
    ts.find? p = some t := by
  intro ts
  induction ts with
  | nil => intro k t h _ _; simp at h
  | cons a as ih =>
    intro k t hk hp hmin
    cases k with
    | zero =>
      simp only [List.getElem?_cons_zero, Option.some.injEq] at hk
      subst hk
      simp [List.find?_cons, hp]
    | succ n =>
      have hpa : p a = false := hmin 0 (Nat.succ_pos n) a (by simp)
      rw [List.find?_cons, hpa]
      exact ih (by simpa using hk) hp fun j hj u hu =>
        hmin (j + 1) (by omega) u (by simpa using hu)

theorem deleteFirst_eq_none {p : Task → Bool} :
    ∀ {ts : List Task}, deleteFirst p ts = none ↔ ∀ t ∈ ts, p t = false := by
  intro ts
  induction ts with
  | nil => simp [deleteFirst]
  | cons a as ih =>
    simp only [deleteFirst]
    by_cases hpa : p a = true
    · simp [hpa]
    · simp only [Bool.not_eq_true] at hpa
      simp [hpa, ih]

theorem deleteFirst_spec {p : Task → Bool} :
    ∀ {ts ts' : List Task}, deleteFirst p ts = some ts' →
    ∃ (k : Nat) (t : Task), ts[k]? = some t ∧ p t = true ∧
      (∀ j, j < k → ∀ u, ts[j]? = some u → p u = false) ∧
      (∀ j, j < k → ts'[j]? = ts[j]?) ∧ (∀ j, k ≤ j → ts'[j]? = ts[j + 1]?) ∧
      ts'.length + 1 = ts.length := by
  intro ts
  induction ts with
  | nil => intro ts' h; simp [deleteFirst] at h
  | cons a as ih =>
    intro ts' h
    simp only [deleteFirst] at h
    by_cases hpa : p a = true
    · rw [if_pos hpa] at h
      injection h with h
      subst h
      refine ⟨0, a, by simp, hpa, ?_, ?_, ?_, by simp⟩
      · intro j hj u _
        exact (Nat.not_lt_zero j hj).elim
      · intro j hj
        exact (Nat.not_lt_zero j hj).elim
      · intro j _
        simp
    · rw [if_neg hpa] at h
      cases hmf : deleteFirst p as with
      | none => rw [hmf] at h; simp at h
      | some bs =>
        rw [hmf] at h
        simp only [Option.map_some', Option.some.injEq] at h
        subst h
        obtain ⟨k, t, h1, h2, h3, h4, h5, h6⟩ := ih hmf
        refine ⟨k + 1, t, by simpa using h1, h2, ?_, ?_, ?_, by simp [← h6]⟩
        · intro j hj u hu
          cases j with
          | zero =>
            simp only [List.getElem?_cons_zero, Option.some.injEq] at hu
            subst hu
            simpa using hpa
          | succ n =>
            exact h3 n (by omega) u (by simpa using hu)
        · intro j hj
          cases j with
          | zero => simp
          | succ n =>
            simpa using h4 n (by omega)
        · intro j hj
          cases j with
          | zero => exact (Nat.not_succ_le_zero k hj).elim
          | succ n =>
            simpa using h5 n (by omega)

theorem deleteFirst_subset {p : Task → Bool} :
    ∀ {ts ts' : List Task}, deleteFirst p ts = some ts' → ∀ t ∈ ts', t ∈ ts := by
  intro ts
  induction ts with
  | nil => intro ts' h; simp [deleteFirst] at h
  | cons a as ih =>
    intro ts' h
    simp only [deleteFirst] at h
    by_cases hpa : p a = true
    · rw [if_pos hpa] at h
      injection h with h
      subst h
      intro t ht
      exact List.mem_cons_of_mem a ht
    · rw [if_neg hpa] at h
      cases hmf : deleteFirst p as with
      | none => rw [hmf] at h; simp at h
      | some bs =>
        rw [hmf] at h
        simp only [Option.map_some', Option.some.injEq] at h
        subst h
        intro t ht
        rcases List.mem_cons.mp ht with h | h
        · simp [h]
        · exact List.mem_cons_of_mem a (ih hmf t h)

theorem save_tasks (ts : List Task) : (save ts).tasks = ts := rfl

theorem applyNotif_keep (now : Int) (deliver : String → String → Bool)
    (q : String × String) {ts : List Task} {i : Nat} {t : Task}
    (ht : ts[i]? = some t) (hne : natToString t.id ≠ q.1) :
    (applyNotif now deliver ts q)[i]? = some t := by
  unfold applyNotif
  by_cases hd : deliver q.1 q.2
  · rw [if_pos hd]
    rw [modifyFirst_getD_of_none_at]
    · exact ht
    · intro u hu
      rw [ht] at hu
      injection hu with hu
      subst hu
      simpa using beq_eq_false_iff_ne.mpr hne
  · rw [if_neg hd]
    exact ht

theorem applyNotif_id_stable (now : Int) (deliver : String → String → Bool)
    (q : String × String) (ts : List Task) (j : Nat) :
    ((applyNotif now deliver ts q)[j]?).map Task.id = (ts[j]?).map Task.id := by
  unfold applyNotif
  by_cases hd : deliver q.1 q.2
  · rw [if_pos hd]
    exact modifyFirst_getD_getElem_map
      (p := fun t => natToString t.id == q.1)
      (f := fun u => { u with last_notification := some now })
      (g := Task.id) (fun t => rfl) ts j
  · rw [if_neg hd]

theorem foldl_notifs_miss (now : Int) (deliver : String → String → Bool) :
    ∀ (ns : List (String × String)) (ts : List Task) (i : Nat) (t : Task),
    ts[i]? = some t → (∀ q ∈ ns, natToString t.id ≠ q.1) →
    (ns.foldl (applyNotif now deliver) ts)[i]? = some t := by
  intro ns
  induction ns with
  | nil => intro ts i t ht _; simpa using ht
  | cons q qs ih =>
    intro ts i t ht hmiss
    rw [List.foldl_cons]
    exact ih _ i t (applyNotif_keep now deliver q ht (hmiss q (by simp)))
      (fun r hr => hmiss r (by simp [hr]))

theorem foldl_notifs_hit (now : Int) (deliver : String → String → Bool) :
    ∀ (ns1 : List (String × String)) (q : String × String)
      (ns2 : List (String × String)) (ts : List Task) (i : Nat) (t : Task),
    ts[i]? = some t → natToString t.id = q.1 →
    (∀ r ∈ ns1, r.1 ≠ q.1) → (∀ r ∈ ns2, r.1 ≠ q.1) →
    (∀ j u, j ≠ i → ts[j]? = some u → natToString u.id ≠ q.1) →
    ((ns1 ++ q :: ns2).foldl (applyNotif now deliver) ts)[i]? =
      some (if deliver q.1 q.2 then { t with last_notification := some now }
            else t) := by
  intro ns1
  induction ns1 with
  | nil =>
    intro q ns2 ts i t ht hid _ hns2 hothers
    rw [List.nil_append, List.foldl_cons]
    by_cases hd : deliver q.1 q.2
    · rw [if_pos hd]
      have hstep : (applyNotif now deliver ts q)[i]?
          = some { t with last_notification := some now } := by
        unfold applyNotif
        rw [if_pos hd]
        obtain ⟨ts', hts', h1, _⟩ := modifyFirst_at
          (f := fun u => { u with last_notification := some now }) ht
          (by simp [hid])
          (fun j hj u hu =>
            beq_eq_false_iff_ne.mpr (hothers j u (by omega) hu))
        rw [hts']
        simpa using h1
      exact foldl_notifs_miss now deliver ns2 _ i _ hstep
        (fun r hr => by
          show natToString t.id ≠ r.1
          rw [hid]
          exact fun e => hns2 r hr e.symm)
    · rw [if_neg hd]
      have hstep : applyNotif now deliver ts q = ts := by
        unfold applyNotif
        rw [if_neg hd]
      rw [hstep]
      exact foldl_notifs_miss now deliver ns2 ts i t ht
        (fun r hr => by
          rw [hid]
          exact fun e => hns2 r hr e.symm)
  | cons r rs ih =>
    intro q ns2 ts i t ht hid hns1 hns2 hothers
    rw [List.cons_append, List.foldl_cons]
    have hne : natToString t.id ≠ r.1 := by
      rw [hid]
      exact fun e => hns1 r (by simp) e.symm
    have hkeep := applyNotif_keep now deliver r ht hne
    apply ih q ns2 _ i t hkeep hid (fun x hx => hns1 x (by simp [hx])) hns2
    intro j u hj hu
    have hst := applyNotif_id_stable now deliver r ts j
    rw [hu] at hst
    cases hv : ts[j]? with
    | none =>
      rw [hv] at hst
      simp at hst
    | some v =>
      rw [hv] at hst
      simp only [Option.map_some', Option.some.injEq] at hst
      rw [show natToString u.id = natToString v.id from by rw [hst]]
      exact hothers j v hj hv

theorem nodup_id_eq_of_getElem {ts : List Task} (hnd : (ts.map Task.id).Nodup)
    {i j : Nat} {u v : Task} (hu : ts[i]? = some u) (hv : ts[j]? = some v)
    (hid : u.id = v.id) : i = j := by
  obtain ⟨hi, hui⟩ := List.getElem?_eq_some.mp hu
  obtain ⟨hj, hvj⟩ := List.getElem?_eq_some.mp hv
  have hi' : i < (ts.map Task.id).length := by simpa using hi
  have hj' : j < (ts.map Task.id).length := by simpa using hj
  have e12 : (ts.map Task.id)[i] = (ts.map Task.id)[j] := by
    rw [List.getElem_map, List.getElem_map, hui, hvj]
    exact hid
  exact (hnd.getElem_inj_iff).mp e12

theorem dueSoonCheck_fst {now : Int} {t : Task} {q : String × String}
    (h : dueSoonCheck now t = some q) : q.1 = natToString t.id := by
  cases hdd : t.due_date with
  | none => simp [dueSoonCheck, hdd] at h
  | some due =>
    simp only [dueSoonCheck, hdd] at h
    split_ifs at h with h1 h2
    all_goals injection h with h
    all_goals rw [← h]

theorem dueSoonCheck_of_eligible {now : Int} {t : Task} {due : Int}
    (hdd : t.due_date = some due) (he : NotifEligible now t) :
    dueSoonCheck now t
      = some (natToString t.id, notifText t.title (numHours (due - now))) := by
  obtain ⟨due', hdd', h0, h24, hcd⟩ := he
  rw [hdd] at hdd'
  injection hdd' with e
  subst e
  simp only [dueSoonCheck, hdd]
  rw [if_pos ⟨h24, h0⟩]
  rcases hcd with hnone | ⟨last, hlast, h6⟩
  · simp [hnone]
  · simp [hlast, h6]

theorem dueSoonCheck_of_not_eligible {now : Int} {t : Task}
    (he : ¬ NotifEligible now t) : dueSoonCheck now t = none := by
  cases hdd : t.due_date with
  | none => simp [dueSoonCheck, hdd]
  | some due =>
    simp only [dueSoonCheck, hdd]
    by_cases h1 : numHours (due - now) ≤ 24 ∧ 0 ≤ numHours (due - now)
    · rw [if_pos h1]
      cases hln : t.last_notification with
      | none =>
        exact absurd ⟨due, hdd, h1.2, h1.1, Or.inl hln⟩ he
      | some last =>
        by_cases h6 : 6 ≤ numHours (now - last)
        · exact absurd ⟨due, hdd, h1.2, h1.1, Or.inr ⟨last, hln, h6⟩⟩ he
        · simp [hln, h6]
    · rw [if_neg h1]

theorem check_notifications_getElem (now : Int)
    (deliver : String → String → Bool) {m : TaskManager} {i : Nat} {t : Task}
    (hnd : (m.tasks.map Task.id).Nodup) (ht : m.tasks[i]? = some t) :
    (check_notifications m now deliver).tasks[i]? =
      some (match dueSoonCheck now t with
            | some q => if deliver q.1 q.2
                        then { t with last_notification := some now } else t
            | none => t) := by
  unfold check_notifications
  rw [save_tasks]
  cases hq : dueSoonCheck now t with
  | none =>
    apply foldl_notifs_miss now deliver _ _ i t ht
    intro q hqmem he
    obtain ⟨u, hu, hdu⟩ := List.mem_filterMap.mp hqmem
    have hq1 : q.1 = natToString u.id := dueSoonCheck_fst hdu
    have huid : u.id = t.id := natToString_injective (by rw [← hq1, ← he])
    obtain ⟨j, hj⟩ := List.mem_iff_getElem?.mp hu
    have hji : j = i := nodup_id_eq_of_getElem hnd hj ht huid
    subst hji
    rw [hj] at ht
    injection ht with ht
    subst ht
    rw [hdu] at hq
    cases hq
  | some q =>
    have hq1 : q.1 = natToString t.id := dueSoonCheck_fst hq
    obtain ⟨hi, hti⟩ := List.getElem?_eq_some.mp ht
    have hsplit : m.tasks = m.tasks.take i ++ t :: m.tasks.drop (i + 1) := by
      conv_lhs => rw [← List.take_append_drop i m.tasks]
      congr 1
      rw [← List.getElem_cons_drop m.tasks i hi, hti]
    have hns : m.tasks.filterMap (dueSoonCheck now)
        = (m.tasks.take i).filterMap (dueSoonCheck now)
          ++ q :: (m.tasks.drop (i + 1)).filterMap (dueSoonCheck now) := by
      conv_lhs => rw [hsplit]
      rw [List.filterMap_append]
      simp [List.filterMap_cons, hq]
    rw [hns]
    apply foldl_notifs_hit now deliver _ q _ _ i t ht hq1.symm
    · intro r hr
      obtain ⟨u, hu, hdu⟩ := List.mem_filterMap.mp hr
      obtain ⟨k, hk, hku⟩ := List.mem_take_iff_getElem.mp hu
      have hr1 : r.1 = natToString u.id := dueSoonCheck_fst hdu
      intro he
      have huid : u.id = t.id := natToString_injective (by rw [← hr1, he, hq1])
      have hku? : m.tasks[k]? = some u :=
        List.getElem?_eq_some.mpr ⟨by omega, hku⟩
      have : k = i := nodup_id_eq_of_getElem hnd hku? ht huid
      omega
    · intro r hr
      obtain ⟨u, hu, hdu⟩ := List.mem_filterMap.mp hr
      obtain ⟨k, hk, hku⟩ := List.mem_drop_iff_getElem.mp hu
      have hr1 : r.1 = natToString u.id := dueSoonCheck_fst hdu
      intro he
      have huid : u.id = t.id := natToString_injective (by rw [← hr1, he, hq1])
      have hku? : m.tasks[(i + 1) + k]? = some u :=
        List.getElem?_eq_some.mpr ⟨by omega, hku⟩
      have : (i + 1) + k = i := nodup_id_eq_of_getElem hnd hku? ht huid
      omega
    · intro j u hj hu he
      have huid : u.id = t.id := natToString_injective (by rw [he, hq1])
      exact hj (nodup_id_eq_of_getElem hnd hu ht huid)

theorem complete_task_map_id (m : TaskManager) (id : Nat) :
    (complete_task m id).1.tasks.map Task.id = m.tasks.map Task.id := by
  unfold complete_task
  split
  next ts' hmf =>
    show ts'.map Task.id = m.tasks.map Task.id
    refine modifyFirst_map ?_ hmf
    intro t
    rfl
  next => rfl

theorem update_status_map_id (m : TaskManager) (id statusIdx : Nat) :
    (update_status m id statusIdx).1.tasks.map Task.id = m.tasks.map Task.id := by
  unfold update_status
  split
  next ts' hmf =>
    show ts'.map Task.id = m.tasks.map Task.id
    refine modifyFirst_map ?_ hmf
    intro t
    rfl
  next => rfl

theorem add_categories_map_id (m : TaskManager) (id : Nat)
    (selections : List (Fin 5)) :
    (add_categories m id selections).1.tasks.map Task.id = m.tasks.map Task.id := by
  unfold add_categories
  split
  next ts' hmf =>
    show ts'.map Task.id = m.tasks.map Task.id
    refine modifyFirst_map ?_ hmf
    intro t
    rfl
  next => rfl

theorem start_time_tracking_map_id (m : TaskManager) (id : Nat) (now : Int) :
    (start_time_tracking m id now).1.tasks.map Task.id = m.tasks.map Task.id := by
  unfold start_time_tracking
  split
  next => rfl
  next task hf =>
    split
    next => rfl
    next =>
      show ((modifyFirst (fun t => t.id == id)
        (fun t => { t with current_time_entry := some ⟨now, none, none⟩ })
        m.tasks).getD m.tasks).map Task.id = m.tasks.map Task.id
      refine modifyFirst_getD_map ?_ m.tasks
      intro t
      rfl

theorem stop_time_tracking_map_id (m : TaskManager) (id : Nat) (now : Int) :
    (stop_time_tracking m id now).1.tasks.map Task.id = m.tasks.map Task.id := by
  unfold stop_time_tracking
  split
  next => rfl
  next task hf =>
    split
    next => rfl
    next c hc =>
      show ((modifyFirst (fun t => t.id == id)
        (fun t =>
          match t.current_time_entry with
          | some c =>
            { t with
              current_time_entry := none
              time_entries := t.time_entries ++ [closeEntry now c] }
          | none => t)
        m.tasks).getD m.tasks).map Task.id = m.tasks.map Task.id
      refine modifyFirst_getD_map ?_ m.tasks
      intro t
      cases t.current_time_entry <;> rfl

theorem foldl_notifs_map_id (now : Int) (deliver : String → String → Bool) :
    ∀ (ns : List (String × String)) (ts : List Task),
    (ns.foldl (applyNotif now deliver) ts).map Task.id = ts.map Task.id := by
  intro ns
  induction ns with
  | nil => intro ts; rfl
  | cons q qs ih =>
    intro ts
    rw [List.foldl_cons, ih]
    unfold applyNotif
    by_cases hd : deliver q.1 q.2
    · rw [if_pos hd]
      refine modifyFirst_getD_map ?_ ts
      intro t
      rfl
    · rw [if_neg hd]

theorem check_notifications_map_id (m : TaskManager) (now : Int)
    (deliver : String → String → Bool) :
    (check_notifications m now deliver).tasks.map Task.id
      = m.tasks.map Task.id := by
  unfold check_notifications
  rw [save_tasks]
  exact foldl_notifs_map_id now deliver _ m.tasks

theorem add_task_map_id (m : TaskManager) (title description : String)
    (priorityIdx : Nat) (dueText : String) (selections : List (Fin 5))
    (now : Int) :
    (add_task m title description priorityIdx dueText selections now).tasks.map
      Task.id = m.tasks.map Task.id ++ [m.tasks.length + 1] := by
  simp only [add_task]
  rw [add_categories_map_id]
  simp [save]

theorem stepND_ids {m m' : TaskManager} (h : StepND m m')
    (hm : IdsCanonical m) : IdsCanonical m' := by
  unfold IdsCanonical at hm ⊢
  have hlenm : (m.tasks.map Task.id).length = m.tasks.length := by simp
  cases h with
  | add title description priorityIdx dueText selections now =>
    have h1 := add_task_map_id m title description priorityIdx dueText
      selections now
    have hlen : (add_task m title description priorityIdx dueText selections
        now).tasks.length = m.tasks.length + 1 := by
      have := congrArg List.length h1
      simpa using this
    rw [h1, hm, hlen, List.range'_concat]
    simp [Nat.add_comm]
  | complete id =>
    have h1 := complete_task_map_id m id
    have hlen : (complete_task m id).1.tasks.length = m.tasks.length := by
      have := congrArg List.length h1
      simpa using this
    rw [h1, hm, hlen]
  | status id statusIdx =>
    have h1 := update_status_map_id m id statusIdx
    have hlen : (update_status m id statusIdx).1.tasks.length
        = m.tasks.length := by
      have := congrArg List.length h1
      simpa using this
    rw [h1, hm, hlen]
  | categories id selections =>
    have h1 := add_categories_map_id m id selections
    have hlen : (add_categories m id selections).1.tasks.length
        = m.tasks.length := by
      have := congrArg List.length h1
      simpa using this
    rw [h1, hm, hlen]
  | start id now =>
    have h1 := start_time_tracking_map_id m id now
    have hlen : (start_time_tracking m id now).1.tasks.length
        = m.tasks.length := by
      have := congrArg List.length h1
      simpa using this
    rw [h1, hm, hlen]
  | stop id now =>
    have h1 := stop_time_tracking_map_id m id now
    have hlen : (stop_time_tracking m id now).1.tasks.length
        = m.tasks.length := by
      have := congrArg List.length h1
      simpa using this
    rw [h1, hm, hlen]
  | notify now deliver =>
    have h1 := check_notifications_map_id m now deliver
    have hlen : (check_notifications m now deliver).tasks.length
        = m.tasks.length := by
      have := congrArg List.length h1
      simpa using this
    rw [h1, hm, hlen]
  | read => exact hm

theorem reachableND_ids {m : TaskManager} (h : ReachableND m) :
    IdsCanonical m := by
  induction h with
  | init => rfl
  | step _ hstep ih => exact stepND_ids hstep ih

theorem add_categories_timerInv {m : TaskManager} {id : Nat}
    {selections : List (Fin 5)} (hm : TimerInv m.tasks) :
    TimerInv (add_categories m id selections).1.tasks := by
  unfold add_categories
  split
  next ts' hmf =>
    show TimerInv ts'
    refine modifyFirst_forall ?_ hmf hm
    intro t ht
    exact ht
  next => exact hm

theorem foldl_notifs_timerInv (now : Int) (deliver : String → String → Bool) :
    ∀ (ns : List (String × String)) (ts : List Task), TimerInv ts →
    TimerInv (ns.foldl (applyNotif now deliver) ts) := by
  intro ns
  induction ns with
  | nil => intro ts h; exact h
  | cons q qs ih =>
    intro ts h
    rw [List.foldl_cons]
    apply ih
    unfold applyNotif
    by_cases hd : deliver q.1 q.2
    · rw [if_pos hd]
      show TimerInv ((modifyFirst (fun t => natToString t.id == q.1)
        (fun t => { t with last_notification := some now }) ts).getD ts)
      refine modifyFirst_getD_forall ?_ h
      intro t ht
      exact ht
    · rw [if_neg hd]
      exact h

theorem step_timerInv {m m' : TaskManager} (h : Step m m')
    (hm : TimerInv m.tasks) : TimerInv m'.tasks := by
  cases h with
  | add title description priorityIdx dueText selections now =>
    show TimerInv (add_task m title description priorityIdx dueText selections
      now).tasks
    unfold add_task
    apply add_categories_timerInv
    rw [save_tasks]
    intro t ht
    rcases List.mem_append.mp ht with h | h
    · exact hm t h
    · intro e he
      simp only [List.mem_singleton] at h
      subst h
      simp at he
  | complete id =>
    unfold complete_task
    split
    next ts' hmf =>
      show TimerInv ts'
      refine modifyFirst_forall ?_ hmf hm
      intro t ht
      exact ht
    next => exact hm
  | status id statusIdx =>
    unfold update_status
    split
    next ts' hmf =>
      show TimerInv ts'
      refine modifyFirst_forall ?_ hmf hm
      intro t ht
      exact ht
    next => exact hm
  | delete id =>
    unfold delete_task
    split
    next ts' hmf =>
      show TimerInv ts'
      exact fun t ht => hm t (deleteFirst_subset hmf t ht)
    next => exact hm
  | categories id selections => exact add_categories_timerInv hm
  | start id now =>
    unfold start_time_tracking
    split
    next => exact hm
    next task hf =>
      split
      next => exact hm
      next =>
        show TimerInv ((modifyFirst (fun t => t.id == id)
          (fun t => { t with current_time_entry := some ⟨now, none, none⟩ })
          m.tasks).getD m.tasks)
        refine modifyFirst_getD_forall ?_ hm
        intro t ht
        exact ht
  | stop id now =>
    unfold stop_time_tracking
    split
    next => exact hm
    next task hf =>
      split
      next => exact hm
      next c hc =>
        show TimerInv ((modifyFirst (fun t => t.id == id)
          (fun t =>
            match t.current_time_entry with
            | some c =>
              { t with
                current_time_entry := none
                time_entries := t.time_entries ++ [closeEntry now c] }
            | none => t)
          m.tasks).getD m.tasks)
        refine modifyFirst_getD_forall ?_ hm
        intro t ht e he
        revert he
        cases htc : t.current_time_entry with
        | none =>
          intro he
          exact ht e he
        | some c' =>
          intro he
          rcases List.mem_append.mp he with h | h
          · exact ht e h
          · simp only [List.mem_singleton] at h
            subst h
            simp [closeEntry]
  | notify now deliver =>
    unfold check_notifications
    rw [save_tasks]
    exact foldl_notifs_timerInv now deliver _ m.tasks hm
  | read => exact hm

theorem modifyFirst_later_dup {p : Task → Bool} {f : Task → Task}
    {ts : List Task} {i j : Nat} {ti tj : Task} (hij : i < j)
    (hti : ts[i]? = some ti) (hpi : p ti = true) (htj : ts[j]? = some tj) :
    ∃ ts', modifyFirst p f ts = some ts' ∧ ts'[j]? = some tj := by
  cases hmf : modifyFirst p f ts with
  | none =>
    have := modifyFirst_eq_none.mp hmf ti (List.mem_iff_getElem?.mpr ⟨i, hti⟩)
    rw [this] at hpi
    cases hpi
  | some ts' =>
    obtain ⟨k, t, h1, h2, h3, h4, h5⟩ := modifyFirst_spec hmf
    have hk : k ≤ i := by
      by_contra hlt
      have := h3 i (by omega) ti hti
      rw [this] at hpi
      cases hpi
    refine ⟨ts', rfl, ?_⟩
    rw [h5 j (by omega)]
    exact htj

theorem deleteFirst_later_dup {p : Task → Bool} {ts : List Task} {i j : Nat}
    {ti tj : Task} (hij : i < j) (hti : ts[i]? = some ti) (hpi : p ti = true)
    (htj : ts[j]? = some tj) :
    ∃ ts', deleteFirst p ts = some ts' ∧ ts'[j - 1]? = some tj := by
  cases hmf : deleteFirst p ts with
  | none =>
    have := deleteFirst_eq_none.mp hmf ti (List.mem_iff_getElem?.mpr ⟨i, hti⟩)
    rw [this] at hpi
    cases hpi
  | some ts' =>
    obtain ⟨k, t, h1, h2, h3, h4, h5, h6⟩ := deleteFirst_spec hmf
    have hk : k ≤ i := by
      by_contra hlt
      have := h3 i (by omega) ti hti
      rw [this] at hpi
      cases hpi
    refine ⟨ts', rfl, ?_⟩
    rw [h5 (j - 1) (by omega), show j - 1 + 1 = j from by omega]
    exact htj

theorem find?_later_dup {p : Task → Bool} {ts : List Task} {i j : Nat}
    {ti : Task} (hij : i < j) (hti : ts[i]? = some ti) (hpi : p ti = true)
    (u : Task) : (ts.set j u).find? p = ts.find? p := by
  have hfind : ∃ t, ts.find? p = some t := by
    cases hf : ts.find? p with
    | none =>
      have := List.find?_eq_none.mp hf ti (List.mem_iff_getElem?.mpr ⟨i, hti⟩)
      rw [hpi] at this
      exact absurd rfl this
    | some t => exact ⟨t, rfl⟩
  obtain ⟨t, hf⟩ := hfind
  obtain ⟨k, h1, h2, h3⟩ := find?_spec hf
  have hki : k ≤ i := by
    by_contra hlt
    have := h3 i (by omega) ti hti
    rw [this] at hpi
    cases hpi
  rw [hf]
  apply find?_of_first (k := k)
  · rw [List.getElem?_set_ne (by omega)]
    exact h1
  · exact h2
  · intro l hl v hv
    rw [List.getElem?_set_ne (by omega)] at hv
    exact h3 l hl v hv

theorem report_foldl :
    ∀ (es : List TimeEntry) (acc : List Session) (s : Int),
    es.foldl
      (fun (a : List Session × Int) e =>
        match e.duration with
        | some d => (a.1 ++ [⟨e.start_time, e.end_time, d⟩], a.2 + d)
        | none => a) (acc, s)
    = (acc ++ es.filterMap
        (fun e => e.duration.map (fun d => ⟨e.start_time, e.end_time, d⟩)),
       s + (es.filterMap TimeEntry.duration).sum) := by
  intro es
  induction es with
  | nil => intro acc s; simp
  | cons e es ih =>
    intro acc s
    rw [List.foldl_cons]
    cases hd : e.duration with
    | none =>
      simp only [hd]
      rw [ih]
      simp [List.filterMap_cons, hd]
    | some d =>
      simp only [hd]
      rw [ih]
      simp [List.filterMap_cons, hd, List.append_assoc, Int.add_assoc]

theorem stop_time_tracking_exact {m : TaskManager} {id : Nat} {now : Int}
    {i : Nat} {t : Task} {c : TimeEntry}
    (ht : m.tasks[i]? = some t) (hid : t.id = id)
    (hmin : ∀ j, j < i → ∀ u, m.tasks[j]? = some u → u.id ≠ id)
    (hc : t.current_time_entry = some c) :
    (stop_time_tracking m id now).2 = .ok ∧
    (stop_time_tracking m id now).1.tasks[i]? =
      some { t with
             current_time_entry := none
             time_entries := t.time_entries ++ [closeEntry now c] } ∧
    ∀ j, j ≠ i → (stop_time_tracking m id now).1.tasks[j]? = m.tasks[j]? := by
  have hfind : m.tasks.find? (fun u => u.id == id) = some t :=
    find?_of_first ht (by simp [hid])
      (fun j hj u hu => beq_eq_false_iff_ne.mpr (hmin j hj u hu))
  obtain ⟨ts', hts', h1, h2⟩ := modifyFirst_at
    (f := fun u =>
      match u.current_time_entry with
      | some c =>
        { u with
          current_time_entry := none
          time_entries := u.time_entries ++ [closeEntry now c] }
      | none => u) ht (by simp [hid])
    (fun j hj u hu => beq_eq_false_iff_ne.mpr (hmin j hj u hu))
  have hred : stop_time_tracking m id now = (save ts', .ok) := by
    simp only [stop_time_tracking, hfind, hc, hts', Option.getD_some]
  simp only [hc] at h1
  refine ⟨by rw [hred], ?_, ?_⟩
  · rw [hred]
    exact h1
  · intro j hj
    rw [hred]
    exact h2 j hj

/-- Claim C1: the add operation assigns the new task the id
`collection length + 1` (not max-id + 1): in general the id list becomes
the old ids extended with `length + 1`, and in particular deleting the
task with id 2 from a 3-task collection and then adding yields a task
with id 3, not 4. -/
theorem c1_add_assigns_length_plus_one :
    (∀ (m : TaskManager) (title description : String) (priorityIdx : Nat)
       (dueText : String) (selections : List (Fin 5)) (now : Int),
      (add_task m title description priorityIdx dueText selections
        now).tasks.map Task.id
        = m.tasks.map Task.id ++ [m.tasks.length + 1]) ∧
    (∀ (t1 t2 t3 : Task), t1.id = 1 → t2.id = 2 → t3.id = 3 →
     ∀ (fi : Json) (title description : String) (priorityIdx : Nat)
       (dueText : String) (selections : List (Fin 5)) (now : Int),
      (add_task (delete_task ⟨[t1, t2, t3], fi⟩ 2).1 title description
        priorityIdx dueText selections now).tasks.map Task.id = [1, 3, 3]) := by
  constructor
  · intro m title description priorityIdx dueText selections now
    exact add_task_map_id m title description priorityIdx dueText selections now
  · intro t1 t2 t3 h1 h2 h3 fi title description priorityIdx dueText
      selections now
    have hdel : delete_task ⟨[t1, t2, t3], fi⟩ 2 = (save [t1, t3], .ok) := by
      unfold delete_task
      have hdf : deleteFirst (fun t => t.id == 2) [t1, t2, t3]
          = some [t1, t3] := by
        simp [deleteFirst, h1, h2]
      rw [hdf]
    rw [hdel, add_task_map_id]
    simp [save, h1, h3]

/-- Witness for C1 at concrete inputs: one add to the empty collection
yields id 1, and the delete-2-then-add scenario yields ids `[1, 3, 3]`. -/
theorem c1_witness :
    (add_task initTM "a" "" 0 "" [] 0).tasks.map Task.id = [1] ∧
    (add_task (delete_task ⟨[mkTask 1, mkTask 2, mkTask 3], Json.arr []⟩
      2).1 "d" "" 0 "" [] 0).tasks.map Task.id = [1, 3, 3] := by
  constructor
  · have h := c1_add_assigns_length_plus_one.1 initTM "a" "" 0 "" [] 0
    simpa [initTM] using h
  · exact c1_add_assigns_length_plus_one.2 (mkTask 1) (mkTask 2) (mkTask 3)
      rfl rfl rfl (Json.arr []) "d" "" 0 "" [] 0

/-- Counterexample to claim C2 as stated: from the empty collection, three
adds yield ids `[1, 2, 3]`; deleting id 1 and adding again yields ids
`[2, 3, 3]` — a duplicate, so uniqueness is not preserved by a delete
followed by an add. -/
theorem c2_counterexample :
    ((add_task (delete_task (add_task (add_task (add_task initTM
        "a" "" 0 "" [] 0) "b" "" 0 "" [] 0) "c" "" 0 "" [] 0)
        1).1 "d" "" 0 "" [] 0).tasks.map Task.id = [2, 3, 3]) ∧
    ¬ ((add_task (delete_task (add_task (add_task (add_task initTM
        "a" "" 0 "" [] 0) "b" "" 0 "" [] 0) "c" "" 0 "" [] 0)
        1).1 "d" "" 0 "" [] 0).tasks.map Task.id).Nodup := by
  constructor
  · decide
  · decide

/-- Claim C2 amended: in every state reachable from the empty collection
by operations that never delete, the ids are exactly `1..N` in order and
hence pairwise distinct; an add after a delete can reuse an id (see the
counterexample). -/
theorem c2_amended_no_delete_nodup :
    ∀ (m : TaskManager), ReachableND m → (m.tasks.map Task.id).Nodup := by
  intro m h
  have hc := reachableND_ids h
  unfold IdsCanonical at hc
  rw [hc]
  exact List.nodup_range' 1 m.tasks.length

/-- Witness for the amended C2 at the initial state. -/
theorem c2_witness : ((initTM : TaskManager).tasks.map Task.id).Nodup :=
  c2_amended_no_delete_nodup initTM ReachableND.init

/-- Claim C3: the notification scan sets a task's `last_notification` to
now exactly when the task is eligible (due within 0..=24 truncated hours,
cooldown of 6 truncated hours elapsed or never notified) and the delivery
call for its collected notification succeeds; otherwise the field is left
unchanged. In particular, with `last_notification = now - 5 hours` and a
task due in 3 hours no notification fires, and with
`last_notification = now - 7 hours` one fires. -/
theorem c3_notification_cooldown :
    (∀ (m : TaskManager) (now : Int) (deliver : String → String → Bool)
       (i : Nat) (t : Task),
      (m.tasks.map Task.id).Nodup → m.tasks[i]? = some t →
      (∀ due, t.due_date = some due → NotifEligible now t →
        (check_notifications m now deliver).tasks[i]? =
          some (if deliver (natToString t.id)
                    (notifText t.title (numHours (due - now)))
                then { t with last_notification := some now } else t)) ∧
      (¬ NotifEligible now t →
        (check_notifications m now deliver).tasks[i]? = some t)) ∧
    dueSoonCheck 0 { mkTask 1 with
      due_date := some 180
      last_notification := some (-300) } = none ∧
    (dueSoonCheck 0 { mkTask 1 with
      due_date := some 180
      last_notification := some (-420) }).isSome = true := by
  refine ⟨?_, by decide, by decide⟩
  intro m now deliver i t hnd ht
  constructor
  · intro due hdd he
    have hchar := check_notifications_getElem now deliver hnd ht
    rw [dueSoonCheck_of_eligible hdd he] at hchar
    exact hchar
  · intro he
    have hchar := check_notifications_getElem now deliver hnd ht
    rw [dueSoonCheck_of_not_eligible he] at hchar
    exact hchar

/-- Witness for C3: a single eligible task with successful delivery gets
`last_notification = now`. -/
theorem c3_witness :
    (check_notifications
      ⟨[{ mkTask 1 with due_date := some 180 }], Json.arr []⟩ 0
      (fun _ _ => true)).tasks[0]? =
      some { { mkTask 1 with due_date := some 180 } with
             last_notification := some 0 } := by
  have h := (c3_notification_cooldown.1
    ⟨[{ mkTask 1 with due_date := some 180 }], Json.arr []⟩ 0
    (fun _ _ => true) 0 { mkTask 1 with due_date := some 180 }
    (by decide) (by decide)).1 180 rfl
    ⟨180, rfl, by decide, by decide, Or.inl rfl⟩
  simpa using h

/-- Counterexample to claim C4 as stated: with empty `time_entries` and a
running timer the report returns right after the header, so the open
entry's elapsed time is not rendered even though `current_time_entry` is
present; and the reported total is the sum of the closed durations only —
one closed 60-minute session plus a 60-minute in-progress session reports
a total of 60, not 60 + 60. -/
theorem c4_counterexample :
    generate_time_report
      ⟨[{ mkTask 1 with current_time_entry := some ⟨0, none, none⟩ }],
       Json.arr []⟩ 1 60 = .noEntries 1 "t" ∧
    ({ mkTask 1 with current_time_entry := some ⟨0, none, none⟩ }
      : Task).current_time_entry.isSome = true ∧
    generate_time_report
      ⟨[{ mkTask 1 with
          time_entries := [⟨0, some 60, some 60⟩]
          current_time_entry := some ⟨60, none, none⟩ }], Json.arr []⟩ 1 120
      = .report 1 "t" [⟨0, some 60, 60⟩] (some (60, 60)) 60 ∧
    (60 : Int) ≠ 60 + 60 := by
  exact ⟨by decide, by decide, by decide, by decide⟩

/-- Claim C4 amended: for a present task id, when `time_entries` is empty
the report stops after the header (rendering nothing else, even a running
timer); otherwise it renders one session per entry that has a duration,
the open entry's start and elapsed time if present, and a total equal to
the sum of the closed durations only — the in-progress elapsed time is
rendered but not included in the total. The operation takes `&self` and
neither mutates nor persists anything. -/
theorem c4_amended_report (m : TaskManager) (id : Nat) (task : Task)
    (now : Int)
    (hfind : m.tasks.find? (fun t => t.id == id) = some task) :
    (task.time_entries = [] →
      generate_time_report m id now = .noEntries task.id task.title) ∧
    (task.time_entries ≠ [] →
      generate_time_report m id now =
        .report task.id task.title
          (task.time_entries.filterMap
            (fun e => e.duration.map
              (fun d => ⟨e.start_time, e.end_time, d⟩)))
          (task.current_time_entry.map
            (fun c => (c.start_time, now - c.start_time)))
          ((task.time_entries.filterMap TimeEntry.duration).sum)) := by
  constructor
  · intro he
    simp [generate_time_report, hfind, he]
  · intro hne
    simp only [generate_time_report, hfind]
    rw [if_neg (by simpa using hne)]
    rw [report_foldl]
    simp

/-- Witness for the amended C4 at a concrete task with one closed
60-minute session and a 60-minute in-progress session. -/
theorem c4_witness :
    generate_time_report
      ⟨[{ mkTask 1 with
          time_entries := [⟨0, some 60, some 60⟩]
          current_time_entry := some ⟨60, none, none⟩ }], Json.arr []⟩ 1 120
      = .report 1 "t" [⟨0, some 60, 60⟩] (some (60, 60)) 60 := by
  have h := (c4_amended_report
    ⟨[{ mkTask 1 with
        time_entries := [⟨0, some 60, some 60⟩]
        current_time_entry := some ⟨60, none, none⟩ }], Json.arr []⟩ 1
    { mkTask 1 with
      time_entries := [⟨0, some 60, some 60⟩]
      current_time_entry := some ⟨60, none, none⟩ } 120 (by decide)).2
    (by decide)
  simpa using h

/-- Claim C5: every entry stored in `time_entries` is closed, preserved by
every operation (the at-most-one open entry lives only in
`current_time_entry` by construction of the data type); and stop-timer
closes the current entry with `end_time = now` and
`duration = now - start_time` exactly, appends it to `time_entries`,
clears `current_time_entry`, and leaves every other position unchanged. -/
theorem c5_timer_invariant :
    (∀ (m m' : TaskManager), Step m m' → TimerInv m.tasks →
      TimerInv m'.tasks) ∧
    (∀ (m : TaskManager) (id : Nat) (now : Int) (i : Nat) (t : Task)
       (c : TimeEntry), m.tasks[i]? = some t → t.id = id →
      (∀ j, j < i → ∀ u, m.tasks[j]? = some u → u.id ≠ id) →
      t.current_time_entry = some c →
      (stop_time_tracking m id now).2 = .ok ∧
      (stop_time_tracking m id now).1.tasks[i]? =
        some { t with
               current_time_entry := none
               time_entries := t.time_entries ++ [closeEntry now c] } ∧
      ∀ j, j ≠ i →
        (stop_time_tracking m id now).1.tasks[j]? = m.tasks[j]?) :=
  ⟨fun _ _ h hm => step_timerInv h hm,
   fun _ _ _ _ _ _ ht hid hmin hc => stop_time_tracking_exact ht hid hmin hc⟩

/-- Witness for C5: the invariant after a concrete step, and a concrete
stop at `now = 9` of an entry started at 5 yields the closed entry
`⟨5, some 9, some 4⟩`. -/
theorem c5_witness :
    TimerInv (complete_task initTM 1).1.tasks ∧
    (stop_time_tracking
      ⟨[{ mkTask 1 with current_time_entry := some ⟨5, none, none⟩ }],
       Json.arr []⟩ 1 9).1.tasks[0]? =
      some { { mkTask 1 with current_time_entry := some ⟨5, none, none⟩ } with
             current_time_entry := none
             time_entries := [closeEntry 9 ⟨5, none, none⟩] } := by
  constructor
  · exact c5_timer_invariant.1 initTM (complete_task initTM 1).1
      (Step.complete initTM 1) (fun t ht => absurd ht (List.not_mem_nil t))
  · have h := (c5_timer_invariant.2
      ⟨[{ mkTask 1 with current_time_entry := some ⟨5, none, none⟩ }],
       Json.arr []⟩ 1 9 0
      { mkTask 1 with current_time_entry := some ⟨5, none, none⟩ }
      ⟨5, none, none⟩ (by decide) rfl
      (fun j hj => absurd hj (Nat.not_lt_zero j)) rfl).2.1
    simpa using h

/-- Claim C6: for an id matching no task, complete, update-status and
delete report not-found and perform no mutation: the returned state is
the unchanged manager (collection and file document), so the rendered
file bytes are byte-for-byte unchanged as well. -/
theorem c6_not_found_noop (m : TaskManager) (id : Nat)
    (h : ∀ t ∈ m.tasks, t.id ≠ id) (statusIdx : Nat) :
    complete_task m id = (m, .notFound) ∧
    update_status m id statusIdx = (m, .notFound) ∧
    delete_task m id = (m, .notFound) ∧
    (delete_task m id).1.file.render = m.file.render := by
  have hmfc : ∀ (f : Task → Task),
      modifyFirst (fun t => t.id == id) f m.tasks = none :=
    fun f => modifyFirst_eq_none.mpr
      (fun t ht => beq_eq_false_iff_ne.mpr (h t ht))
  have hdel : deleteFirst (fun t => t.id == id) m.tasks = none :=
    deleteFirst_eq_none.mpr (fun t ht => beq_eq_false_iff_ne.mpr (h t ht))
  refine ⟨?_, ?_, ?_, ?_⟩
  · unfold complete_task
    rw [hmfc]
  · unfold update_status
    rw [hmfc]
  · unfold delete_task
    rw [hdel]
  · unfold delete_task
    rw [hdel]

/-- Witness for C6 at a concrete one-task collection and a missing id. -/
theorem c6_witness :
    complete_task ⟨[mkTask 1], Json.arr []⟩ 5
      = (⟨[mkTask 1], Json.arr []⟩, .notFound) ∧
    delete_task ⟨[mkTask 1], Json.arr []⟩ 5
      = (⟨[mkTask 1], Json.arr []⟩, .notFound) := by
  have h := c6_not_found_noop ⟨[mkTask 1], Json.arr []⟩ 5 (by decide) 0
  exact ⟨h.1, h.2.2.1⟩

/-- Claim C7 fails on the code (code bug): `add_task` combines the parsed
naive due-date text with the local offset via
`DateTime::from_naive_utc_and_offset`, which interprets the entered
wall-clock text as a UTC instant; `list_tasks` then renders
`naive_utc + offset`, so in any locale with a nonzero UTC offset the list
shows the entered time shifted by the offset: at offset +01:00 (60
minutes), entering `2025-03-01 09:00` renders as `2025-03-01 10:00`.
Only at offset 0 does the rendering equal the entered text. -/
theorem c7_due_date_render_shifted :
    listDueLines 60 (add_task initTM "Write report" "" 2 "2025-03-01 09:00"
      [] 0) = [some "2025-03-01 10:00"] ∧
    listDueLines 0 (add_task initTM "Write report" "" 2 "2025-03-01 09:00"
      [] 0) = [some "2025-03-01 09:00"] ∧
    ("2025-03-01 10:00" : String) ≠ "2025-03-01 09:00" := by
  exact ⟨by decide, by decide, by decide⟩

/-- Claim C8: saving a collection and loading it back yields an identical
collection — decoding the encoded document returns exactly the original
tasks (ids, fields, nested entries and categories, timestamps at full
model precision), and the load step of `TaskManager::new` returns them
verbatim. -/
theorem c8_round_trip (ts : List Task) :
    decodeTasks (encodeTasks ts) = some ts ∧
    loadTasks (encodeTasks ts) = ts := by
  refine ⟨decodeTasks_encodeTasks ts, ?_⟩
  unfold loadTasks
  rw [decodeTasks_encodeTasks ts]
  rfl

/-- Claim C9: category assignment replaces wholesale — after two
successive assignments with selections `s1` then `s2`, the first matching
task's categories are exactly the catalog entries selected by `s2`,
independent of `s1`. -/
theorem c9_categories_replace (m : TaskManager) (id : Nat) (t0 : Task)
    (hfind : m.tasks.find? (fun t => t.id == id) = some t0)
    (s1 s2 : List (Fin 5)) :
    (add_categories (add_categories m id s1).1 id s2).1.tasks.find?
      (fun t => t.id == id)
      = some { t0 with categories := selectedCategories s2 } := by
  obtain ⟨k, h1, h2, h3⟩ := find?_spec hfind
  obtain ⟨ts1, hts1, g1, g2⟩ := modifyFirst_at
    (f := fun t => { t with categories := selectedCategories s1 }) h1 h2 h3
  have e1 : (add_categories m id s1).1.tasks = ts1 := by
    unfold add_categories
    rw [hts1]
    rfl
  have hmin1 : ∀ j, j < k → ∀ u, ts1[j]? = some u →
      (fun t => t.id == id) u = false := by
    intro j hj u hu
    rw [g2 j (by omega)] at hu
    exact h3 j hj u hu
  obtain ⟨ts2, hts2, f1, f2⟩ := modifyFirst_at
    (f := fun t => { t with categories := selectedCategories s2 }) g1 h2 hmin1
  have e2 : ∀ (mm : TaskManager), mm.tasks = ts1 →
      (add_categories mm id s2).1.tasks = ts2 := by
    intro mm hmm
    unfold add_categories
    rw [hmm, hts2]
    rfl
  rw [e2 (add_categories m id s1).1 e1]
  refine find?_of_first (k := k) f1 h2 ?_
  intro j hj u hu
  rw [f2 j (by omega), g2 j (by omega)] at hu
  exact h3 j hj u hu

/-- Witness for C9: selecting `[0, 2]` then `[1]` leaves exactly the
catalog entries of `[1]`. -/
theorem c9_witness :
    (add_categories (add_categories ⟨[mkTask 4], Json.arr []⟩ 4 [0, 2]).1 4
      [1]).1.tasks.find? (fun t => t.id == 4)
      = some { mkTask 4 with categories := selectedCategories [1] } :=
  c9_categories_replace ⟨[mkTask 4], Json.arr []⟩ 4 (mkTask 4) (by decide)
    [0, 2] [1]

/-- Claim C10: with duplicate ids, every id-based operation touches only
the first matching task: positions after an earlier match are unchanged
by complete, update-status, categorize and start/stop timer; the time
report reads only the first match (replacing a later position does not
change its output); delete removes only the first match, shifting later
positions down by one. -/
theorem c10_first_match_only (m : TaskManager) (id : Nat) (i j : Nat)
    (ti tj : Task) (hij : i < j) (hti : m.tasks[i]? = some ti)
    (hidi : ti.id = id) (htj : m.tasks[j]? = some tj) (now : Int)
    (selections : List (Fin 5)) (statusIdx : Nat) (u : Task) :
    (complete_task m id).1.tasks[j]? = some tj ∧
    (update_status m id statusIdx).1.tasks[j]? = some tj ∧
    (add_categories m id selections).1.tasks[j]? = some tj ∧
    (start_time_tracking m id now).1.tasks[j]? = some tj ∧
    (stop_time_tracking m id now).1.tasks[j]? = some tj ∧
    generate_time_report ⟨m.tasks.set j u, m.file⟩ id now
      = generate_time_report m id now ∧
    (delete_task m id).1.tasks[j - 1]? = some tj := by
  have hp : (fun t => t.id == id) ti = true := by simp [hidi]
  refine ⟨?_, ?_, ?_, ?_, ?_, ?_, ?_⟩
  · obtain ⟨ts', hts', hjj⟩ := modifyFirst_later_dup
      (p := fun t => t.id == id) (f := fun t => { t with status := .Done }) hij hti hp htj
    unfold complete_task
    rw [hts']
    exact hjj
  · obtain ⟨ts', hts', hjj⟩ := modifyFirst_later_dup
      (p := fun t => t.id == id) (f := fun t => { t with status := statusOfIdx statusIdx }) hij hti hp htj
    unfold update_status
    rw [hts']
    exact hjj
  · obtain ⟨ts', hts', hjj⟩ := modifyFirst_later_dup
      (p := fun t => t.id == id) (f := fun t => { t with categories := selectedCategories selections })
      hij hti hp htj
    unfold add_categories
    rw [hts']
    exact hjj
  · unfold start_time_tracking
    split
    next hf =>
      exact absurd hp (by
        simpa using List.find?_eq_none.mp hf ti
          (List.mem_iff_getElem?.mpr ⟨i, hti⟩))
    next task hf =>
      split
      next => exact htj
      next =>
        obtain ⟨ts', hts', hjj⟩ := modifyFirst_later_dup
          (p := fun t => t.id == id) (f := fun t =>
            { t with current_time_entry := some ⟨now, none, none⟩ })
          hij hti hp htj
        rw [hts']
        exact hjj
  · unfold stop_time_tracking
    split
    next hf =>
      exact absurd hp (by
        simpa using List.find?_eq_none.mp hf ti
          (List.mem_iff_getElem?.mpr ⟨i, hti⟩))
    next task hf =>
      split
      next => exact htj
      next c hc =>
        obtain ⟨ts', hts', hjj⟩ := modifyFirst_later_dup
          (p := fun t => t.id == id) (f := fun t =>
            match t.current_time_entry with
            | some c =>
              { t with
                current_time_entry := none
                time_entries := t.time_entries ++ [closeEntry now c] }
            | none => t) hij hti hp htj
        rw [hts']
        exact hjj
  · unfold generate_time_report
    rw [find?_later_dup hij hti hp u]
  · obtain ⟨ts', hts', hjj⟩ := deleteFirst_later_dup (p := fun t => t.id == id) hij hti hp htj
    unfold delete_task
    rw [hts']
    exact hjj

/-- Witness for C10 at a two-task collection with duplicate id 7. -/
theorem c10_witness :
    (complete_task ⟨[mkTask 7, mkTask 7], Json.arr []⟩ 7).1.tasks[1]?
      = some (mkTask 7) ∧
    (delete_task ⟨[mkTask 7, mkTask 7], Json.arr []⟩ 7).1.tasks[0]?
      = some (mkTask 7) := by
  have h := c10_first_match_only ⟨[mkTask 7, mkTask 7], Json.arr []⟩ 7 0 1
    (mkTask 7) (mkTask 7) (by decide) (by decide) rfl (by decide) 0 [] 0
    (mkTask 9)
  exact ⟨h.1, h.2.2.2.2.2.2⟩

end VT
